import Mathlib

/-!
Verification of the PgAdminKK PostgreSQL client (src/db.py, src/ui.py)
against its natural-language specification.

The Python source is shallowly embedded: pure string manipulation becomes
Lean functions on `String` / `List Char`; the stateful database session,
transaction and edit-overlay code becomes explicit state passing over
small structures; environmental effects (the database server accepting or
rejecting a statement, the contents of the connections file) become
explicit oracle parameters.  Python values flowing through the data paths
are modelled by the inductive `PyVal`, Python dicts by association lists
with Python-dict update semantics.
-/

namespace PgAdminKK

/-! ## Python value model -/

/-- Model of the Python values that flow through rows, cells and edits:
`None`, booleans, integers and strings. -/
inductive PyVal where
  | vnull : PyVal
  | vbool : Bool → PyVal
  | vint : Int → PyVal
  | vstr : String → PyVal
deriving DecidableEq, Repr

/-- Python `==` on `PyVal`, including the coercion `True == 1`,
`False == 0` that Python applies between `bool` and `int`. -/
def pyEq : PyVal → PyVal → Bool
  | .vnull, .vnull => true
  | .vbool a, .vbool b => a == b
  | .vint a, .vint b => a == b
  | .vstr a, .vstr b => a == b
  | .vbool a, .vint b => (if a then (1 : Int) else 0) == b
  | .vint a, .vbool b => a == (if b then (1 : Int) else 0)
  | _, _ => false

/-! ## Python string helpers (ASCII fragment used by the sources) -/

/-- The whitespace characters stripped by Python `str.strip()` and matched
by the regex class `\s` (ASCII fragment). -/
def isPySpace (c : Char) : Bool :=
  c == ' ' || c == '\t' || c == '\n' || c == '\r' || c == '\x0b' || c == '\x0c'

/-- Python `str.strip()` on the character list. -/
def pyStrip (cs : List Char) : List Char :=
  ((cs.dropWhile isPySpace).reverse.dropWhile isPySpace).reverse

/-- Python `str.rstrip(";")` on the character list. -/
def pyRstripSemi (cs : List Char) : List Char :=
  (cs.reverse.dropWhile (fun c => c == ';')).reverse

/-- Python `str.upper()` on the character list (ASCII). -/
def pyUpper (cs : List Char) : List Char :=
  cs.map Char.toUpper

/-- Python substring containment `needle in hay`. -/
def containsSub (needle : List Char) : List Char → Bool
  | [] => needle.isEmpty
  | c :: t => needle.isPrefixOf (c :: t) || containsSub needle t

/-! ## `Database.execute_query` statement rewriting (src/db.py lines 239-246)

`execute_query` first strips surrounding whitespace and trailing
semicolons, classifies the text as a SELECT iff its uppercased form starts
with `SELECT`, and appends ` LIMIT 1000` iff it is a SELECT and `LIMIT`
does not occur (case-insensitively) in the text.  The statement finally
passed to `cursor.execute` is modelled here. -/

/-- Python `query.strip().rstrip(";")` from `execute_query`. -/
def query_stripped (query : String) : List Char :=
  pyRstripSemi (pyStrip query.data)

/-- Flag `is_select`: the stripped text's uppercased form starts with `SELECT`. -/
def is_select (query : String) : Bool :=
  "SELECT".data.isPrefixOf (pyUpper (query_stripped query))

/-- Whether `LIMIT` occurs (case-insensitively) in the stripped text. -/
def has_limit (query : String) : Bool :=
  containsSub "LIMIT".data (pyUpper (query_stripped query))

/-- The statement text `execute_query` sends to the server. -/
def executed_statement (query : String) : List Char :=
  if is_select query && !has_limit query then
    query_stripped query ++ " LIMIT 1000".data
  else
    query_stripped query

/-! ## `MainWindow._parse_table_from_query` (src/ui.py lines 872-904)

The resolver first refuses any text whose uppercased form contains
`" JOIN "`, then runs `re.search` with `re.IGNORECASE` for the four
patterns, in order:

1. `FROM\s+"([^"]+)"\s*\.\s*"([^"]+)"`
2. `FROM\s+([a-zA-Z_][a-zA-Z0-9_]*)\s*\.\s*([a-zA-Z_][a-zA-Z0-9_]*)`
3. `FROM\s+"([^"]+)"(?:\s|$|WHERE|ORDER|GROUP|LIMIT)`
4. `FROM\s+([a-zA-Z_][a-zA-Z0-9_]*)(?:\s|$|WHERE|ORDER|GROUP|LIMIT)`

Each pattern is embedded as a matcher at a fixed position plus a leftmost
search driver.  In patterns 1-3 every greedy sub-match is forced (the
character classes adjacent to each greedy repetition are disjoint), so
matching is deterministic; pattern 4 needs the regex engine's
backtracking over the length of the captured identifier, embedded in
`pickSplitAux` (longest capture first, exactly as the greedy `*`
backtracks). -/

/-- Case-insensitive character comparison, as under `re.IGNORECASE`. -/
def ciEq (a b : Char) : Bool := a.toUpper == b.toUpper

/-- Match a literal (case-insensitively); return the rest of the input. -/
def matchLitCI : List Char → List Char → Option (List Char)
  | [], cs => some cs
  | _ :: _, [] => none
  | p :: ps, c :: cs => if ciEq p c then matchLitCI ps cs else none

/-- Regex `\s+`: require at least one whitespace character, consume the run. -/
def dropSpaces1 : List Char → Option (List Char)
  | [] => none
  | c :: cs => if isPySpace c then some (cs.dropWhile isPySpace) else none

/-- Regex identifier class start: `[a-zA-Z_]`. -/
def identStart (c : Char) : Bool := c.isAlpha || c == '_'

/-- Regex identifier class continuation: `[a-zA-Z0-9_]`. -/
def identChar (c : Char) : Bool := c.isAlpha || c.isDigit || c == '_'

/-- Capture `([a-zA-Z_][a-zA-Z0-9_]*)` at the current position (greedy); returns
the capture and the rest. -/
def takeIdent : List Char → Option (List Char × List Char)
  | [] => none
  | c :: cs =>
    if identStart c then some (c :: cs.takeWhile identChar, cs.dropWhile identChar)
    else none

/-- Capture `"([^"]+)"` at the current position; returns the capture and the rest. -/
def takeQuoted : List Char → Option (List Char × List Char)
  | [] => none
  | c :: cs =>
    if c == '"' then
      let body := cs.takeWhile (fun d => !(d == '"'))
      if body.isEmpty then none
      else
        match cs.dropWhile (fun d => !(d == '"')) with
        | '"' :: rest => some (body, rest)
        | _ => none
    else none

/-- Regex `\s*\.\s*` at the current position. -/
def dotSep (cs : List Char) : Option (List Char) :=
  match cs.dropWhile isPySpace with
  | '.' :: rest => some (rest.dropWhile isPySpace)
  | _ => none

/-- The terminator alternation `(?:\s|$|WHERE|ORDER|GROUP|LIMIT)` of
patterns 3 and 4 (case-insensitive). -/
def termOK (cs : List Char) : Bool :=
  match cs with
  | [] => true
  | c :: _ =>
    isPySpace c || (matchLitCI "WHERE".data cs).isSome
      || (matchLitCI "ORDER".data cs).isSome
      || (matchLitCI "GROUP".data cs).isSome
      || (matchLitCI "LIMIT".data cs).isSome

/-- Pattern 1 `FROM\s+"([^"]+)"\s*\.\s*"([^"]+)"` at a fixed position. -/
def matchP1At (cs : List Char) : Option (String × String) := do
  let r1 ← matchLitCI "FROM".data cs
  let r2 ← dropSpaces1 r1
  let (g1, r3) ← takeQuoted r2
  let r4 ← dotSep r3
  let (g2, _) ← takeQuoted r4
  some (⟨g1⟩, ⟨g2⟩)

/-- Pattern 2 `FROM\s+(ident)\s*\.\s*(ident)` at a fixed position. -/
def matchP2At (cs : List Char) : Option (String × String) := do
  let r1 ← matchLitCI "FROM".data cs
  let r2 ← dropSpaces1 r1
  let (g1, r3) ← takeIdent r2
  let r4 ← dotSep r3
  let (g2, _) ← takeIdent r4
  some (⟨g1⟩, ⟨g2⟩)

/-- Pattern 3 `FROM\s+"([^"]+)"(?:\s|$|WHERE|ORDER|GROUP|LIMIT)` at a
fixed position. -/
def matchP3At (cs : List Char) : Option String := do
  let r1 ← matchLitCI "FROM".data cs
  let r2 ← dropSpaces1 r1
  let (g1, r3) ← takeQuoted r2
  if termOK r3 then some ⟨g1⟩ else none

/-- Backtracking over the capture length for pattern 4: the capture is
`first :: body.take k`, the remaining input `body.drop k ++ after`; try
the longest capture first, as the greedy `*` does. -/
def pickSplitAux (first : Char) (body after : List Char) : Nat → Option String
  | 0 => if termOK (body ++ after) then some ⟨[first]⟩ else none
  | Nat.succ k =>
    if termOK (body.drop (k + 1) ++ after) then some ⟨first :: body.take (k + 1)⟩
    else pickSplitAux first body after k

/-- Pattern 4 `FROM\s+(ident)(?:\s|$|WHERE|ORDER|GROUP|LIMIT)` at a fixed
position. -/
def matchP4At (cs : List Char) : Option String := do
  let r1 ← matchLitCI "FROM".data cs
  let r2 ← dropSpaces1 r1
  match r2 with
  | [] => none
  | c :: rest =>
    if identStart c then
      pickSplitAux c (rest.takeWhile identChar) (rest.dropWhile identChar)
        (rest.takeWhile identChar).length
    else none

/-- Search like `re.search`: try the matcher at each position, leftmost match wins. -/
def searchList {α : Type} (f : List Char → Option α) : List Char → Option α
  | [] => f []
  | c :: cs =>
    match f (c :: cs) with
    | some r => some r
    | none => searchList f cs

/-- Resolver `MainWindow._parse_table_from_query`: refuse texts containing
`" JOIN "` (uppercased), else try the four patterns in order; the
schema-qualified patterns return both groups, the single-identifier
patterns resolve to schema `public`; no match yields `("", "")`. -/
def parse_table_from_query (query : String) : String × String :=
  if containsSub " JOIN ".data (pyUpper query.data) then ("", "")
  else
    match searchList matchP1At query.data with
    | some (s, t) => (s, t)
    | none =>
      match searchList matchP2At query.data with
      | some (s, t) => (s, t)
      | none =>
        match searchList matchP3At query.data with
        | some t => ("public", t)
        | none =>
          match searchList matchP4At query.data with
          | some t => ("public", t)
          | none => ("", "")

/-! ## Python dict model

Association lists with Python-dict semantics: assignment replaces the
value in place when the key is present and appends otherwise, `del`
removes the key, lookup finds the unique entry. -/

/-- Assignment `d[k] = v` on a Python dict: replace the value in place when the key
is present (a dict holds at most one entry per key), append otherwise. -/
def dictSet {K V : Type} [DecidableEq K] (m : List (K × V)) (k : K) (v : V) :
    List (K × V) :=
  match m with
  | [] => [(k, v)]
  | p :: rest => if p.1 = k then (k, v) :: rest else p :: dictSet rest k v

/-- Deletion `del d[k]` on a Python dict: drop the entry for `k` (total: no-op when
the key is absent). -/
def dictDel {K V : Type} [DecidableEq K] (m : List (K × V)) (k : K) :
    List (K × V) :=
  match m with
  | [] => []
  | p :: rest => if p.1 = k then rest else p :: dictDel rest k

/-- Dict lookup: `d[k]` when `k in d`, else `none`. -/
def dictGet {K V : Type} [DecidableEq K] (m : List (K × V)) (k : K) : Option V :=
  match m with
  | [] => none
  | p :: rest => if p.1 = k then some p.2 else dictGet rest k

/-- A dict holds at most one entry per key. -/
def keysNodup {K V : Type} (m : List (K × V)) : Prop :=
  (m.map (fun p => p.1)).Nodup

/-! ## `ResultsModel` (src/ui.py lines 211-359)

Rows are Python dicts from column name to value (`row_factory=dict_row`);
`dict.get` returns `None` for a missing key.  The pending-edit overlay is
a dict keyed by `(row, col)`. -/

/-- A fetched row: a dict from column name to value. -/
def Row : Type := List (String × PyVal)

/-- Python `row.get(name)`: the value, or `None` when absent. -/
def Row.get (r : Row) (name : String) : PyVal :=
  (dictGet r name).getD .vnull

/-- State of `ResultsModel`. -/
structure ResultsModel where
  rows : List Row
  columns : List String
  column_types : List Int
  edits : List ((Nat × Nat) × PyVal)
  pk_columns : List String
  schema : String
  table : String
  is_error : Bool

/-- Constructor `ResultsModel.__init__`. -/
def ResultsModel.init : ResultsModel :=
  ⟨[], [], [], [], [], "", "", false⟩

/-- Method `ResultsModel.set_data`: replace data, clear the edit overlay, and
classify the result as an error iff exactly one column named `Error`. -/
def ResultsModel.set_data (m : ResultsModel) (rows : List Row)
    (columns : List String) (column_types : List Int) : ResultsModel :=
  { m with
    rows := rows
    columns := columns
    column_types := column_types
    edits := []
    is_error := columns.length = 1 && columns.headD "" = "Error" }

/-- Method `ResultsModel.set_table_info`. -/
def ResultsModel.set_table_info (m : ResultsModel) (schema table : String)
    (pk_columns : List String) : ResultsModel :=
  { m with schema := schema, table := table, pk_columns := pk_columns }

/-- A model index is valid iff it addresses a cell of the current data
(Qt's `model.index(r, c)` yields an invalid index outside the bounds). -/
def ResultsModel.validIndex (m : ResultsModel) (row col : Nat) : Bool :=
  decide (row < m.rows.length) && decide (col < m.columns.length)

/-- Method `ResultsModel.setData` with `role=EditRole`: on a valid index, compare
the new value against the original fetched value; record/replace the edit
when they differ (`value != original`, written with the positive
comparison and swapped branches), remove any existing edit when they are equal;
return whether the write was accepted. -/
def ResultsModel.setData (m : ResultsModel) (row col : Nat) (value : PyVal) :
    ResultsModel × Bool :=
  if m.validIndex row col then
    if pyEq value (Row.get (m.rows.getD row []) (m.columns.getD col "")) = true then
      (if (dictGet m.edits (row, col)).isSome = true then
        ({ m with edits := dictDel m.edits (row, col) }, true)
      else (m, true))
    else
      ({ m with edits := dictSet m.edits (row, col) value }, true)
  else (m, false)

/-- Method `ResultsModel.data` with `role=EditRole`: the pending edit when one
exists, else the original fetched value (`None` off a valid index). -/
def ResultsModel.dataEdit (m : ResultsModel) (row col : Nat) : PyVal :=
  if m.validIndex row col then
    match dictGet m.edits (row, col) with
    | some v => v
    | none => Row.get (m.rows.getD row []) (m.columns.getD col "")
  else .vnull

/-- Method `ResultsModel.flags`: a cell is editable iff a table name is bound and
the primary-key column list is non-empty (Python truthiness of
`self._table and self._pk_columns`). -/
def ResultsModel.editable (m : ResultsModel) : Bool :=
  !(m.table == "") && !m.pk_columns.isEmpty

/-- Method `ResultsModel.clear_edits`. -/
def ResultsModel.clear_edits (m : ResultsModel) : ResultsModel :=
  { m with edits := [] }

/-- Method `ResultsModel.get_pending_edits`: for each pending edit, the key
values of its row (in primary-key-column order), the edited column's name
and the new value. -/
def ResultsModel.get_pending_edits (m : ResultsModel) :
    List (List PyVal × String × PyVal) :=
  m.edits.map (fun e =>
    (m.pk_columns.map (fun pk => Row.get (m.rows.getD e.1.1 []) pk),
      m.columns.getD e.1.2 "", e.2))

/-! ## `Database` transaction and `execute_update` (src/db.py lines 115-123, 273-308)

The connection and its transaction are modelled explicitly: `pending`
holds the statements executed inside the open transaction (in order),
`durable` the statements made durable by previous commits.  Whether the
server accepts a given UPDATE is environmental and is passed in as the
oracle `fail : UpdateOp → Option String` (the error text when the
statement fails). -/

/-- The parameterized statement `UPDATE schema.table SET column = %s WHERE
pk1 = %s AND ...` built by `execute_update`, with its parameters. -/
structure UpdateOp where
  schema : String
  table : String
  pk_columns : List String
  pk_values : List PyVal
  column : String
  new_value : PyVal
deriving DecidableEq, Repr

/-- Connection/transaction state of `Database`. -/
structure Db where
  connected : Bool
  pending : List UpdateOp
  durable : List UpdateOp
deriving DecidableEq, Repr

/-- Method `Database.commit`: commit the open transaction; no-op if not connected. -/
def Db.commit (db : Db) : Db :=
  if db.connected then { db with pending := [], durable := db.durable ++ db.pending }
  else db

/-- Method `Database.rollback`: discard the open transaction; no-op if not connected. -/
def Db.rollback (db : Db) : Db :=
  if db.connected then { db with pending := [] }
  else db

/-- Method `Database.execute_update`: refuse when not connected; refuse with the
no-primary-key error when the key list is empty; otherwise execute the
UPDATE in the open transaction — on a database error roll the transaction
back and return the error text, on success leave the transaction open
with the statement appended and return no error. -/
def Db.execute_update (db : Db) (fail : UpdateOp → Option String)
    (schema table : String) (pk_columns : List String) (pk_values : List PyVal)
    (column : String) (new_value : PyVal) : Option String × Db :=
  if !db.connected then (some "Not connected", db)
  else if pk_columns.isEmpty then (some "No primary key - cannot update", db)
  else
    let op : UpdateOp := ⟨schema, table, pk_columns, pk_values, column, new_value⟩
    match fail op with
    | some e => (some e, { db with pending := [] })
    | none => (none, { db with pending := db.pending ++ [op] })

/-! ## `MainWindow._commit_changes` (src/ui.py lines 1033-1065)

The commit flow is stated over the pending-edit list produced by
`get_pending_edits` together with the bound table reference, exactly the
data `_commit_changes` reads from the results model. -/

/-- The `UpdateOp` `_commit_changes` issues for one pending edit. -/
def mkOp (schema table : String) (pk_columns : List String)
    (e : List PyVal × String × PyVal) : UpdateOp :=
  ⟨schema, table, pk_columns, e.1, e.2.1, e.2.2⟩

/-- The `for` loop of `_commit_changes`: issue `execute_update` for every
pending edit, threading the connection state and collecting the error
texts in order. -/
def run_edits (fail : UpdateOp → Option String) (schema table : String)
    (pk_columns : List String) (db : Db) :
    List (List PyVal × String × PyVal) → Db × List String
  | [] => (db, [])
  | e :: rest =>
    let r := db.execute_update fail schema table pk_columns e.1 e.2.1 e.2.2
    let rec' := run_edits fail schema table pk_columns r.2 rest
    (rec'.1, match r.1 with
             | some msg => msg :: rec'.2
             | none => rec'.2)

/-- Grid-side state read and written by `_commit_changes`. -/
structure GridState where
  edits : List (List PyVal × String × PyVal)
  schema : String
  table : String
  pk_columns : List String
deriving DecidableEq, Repr

/-- Method `MainWindow._commit_changes`: with pending edits and no primary key,
warn and do nothing; otherwise issue every per-cell UPDATE — if any
failed, roll the transaction back, keep the edit set and surface the
first error; if all succeeded, clear the edit set and commit the
transaction.  With no pending edits, just commit (the DML path).  Returns
the new grid state, the new connection state and the surfaced error. -/
def commit_changes (fail : UpdateOp → Option String) (g : GridState) (db : Db) :
    GridState × Db × Option String :=
  if !g.edits.isEmpty then
    if g.pk_columns.isEmpty then
      (g, db, some "No primary key detected. Updates not supported for this query.")
    else
      let r := run_edits fail g.schema g.table g.pk_columns db g.edits
      if !r.2.isEmpty then
        (g, r.1.rollback, some ("Update failed: " ++ r.2.headD ""))
      else
        ({ g with edits := [] }, r.1.commit, none)
  else (g, db.commit, none)

/-! ## Connection profile store (src/db.py lines 16-82)

`ConnectionInfo` as produced by a well-typed store; `get_last_connection`
sorts the loaded profiles by `last_connected_at or ""` descending with
Python's stable sort and returns the first.  `List.insertionSort` with
the flipped key order is such a stable descending sort. -/

/-- The `ConnectionInfo` dataclass. -/
structure ConnectionInfo where
  name : String
  host : String
  port : Int
  dbname : String
  user : String
  password : String
  last_connected_at : Option String
deriving DecidableEq, Repr

/-- Key `sort_key` inside `get_last_connection`: `c.last_connected_at or ""`. -/
def sort_key (c : ConnectionInfo) : String :=
  c.last_connected_at.getD ""

/-- Python string comparison `a <= b`: lexicographic on code points. -/
def charListLe : List Char → List Char → Bool
  | [], _ => true
  | _ :: _, [] => false
  | a :: as, b :: bs =>
    if a.toNat < b.toNat then true
    else if b.toNat < a.toNat then false
    else charListLe as bs

theorem charListLe_total (as bs : List Char) :
    charListLe as bs = true ∨ charListLe bs as = true := by
  induction as generalizing bs with
  | nil => exact Or.inl rfl
  | cons a as ih =>
    cases bs with
    | nil => exact Or.inr rfl
    | cons b bs =>
      rcases Nat.lt_trichotomy a.toNat b.toNat with hlt | heq | hgt
      · exact Or.inl (by simp [charListLe, hlt])
      · rcases ih bs with h | h
        · exact Or.inl (by simp [charListLe, heq, h])
        · exact Or.inr (by simp [charListLe, heq.symm, h])
      · exact Or.inr (by simp [charListLe, hgt])

theorem charListLe_trans {as bs cs : List Char} (h1 : charListLe as bs = true)
    (h2 : charListLe bs cs = true) : charListLe as cs = true := by
  induction as generalizing bs cs with
  | nil => rfl
  | cons a as ih =>
    cases bs with
    | nil => exact absurd h1 (by simp [charListLe])
    | cons b bs =>
      cases cs with
      | nil => exact absurd h2 (by simp [charListLe])
      | cons c cs =>
        simp only [charListLe] at h1 h2 ⊢
        by_cases hab : a.toNat < b.toNat
        · by_cases hbc : b.toNat < c.toNat
          · simp [Nat.lt_trans hab hbc]
          · by_cases hcb : c.toNat < b.toNat
            · simp [hbc, hcb] at h2
            · have hbc' : b.toNat = c.toNat := Nat.le_antisymm
                (Nat.le_of_not_lt hcb) (Nat.le_of_not_lt hbc)
              simp [hbc' ▸ hab]
        · by_cases hba : b.toNat < a.toNat
          · simp [hab, hba] at h1
          · have hab' : a.toNat = b.toNat := Nat.le_antisymm
              (Nat.le_of_not_lt hba) (Nat.le_of_not_lt hab)
            rw [if_neg hab, if_neg hba] at h1
            by_cases hbc : b.toNat < c.toNat
            · simp [hab' ▸ hbc]
            · by_cases hcb : c.toNat < b.toNat
              · simp [hbc, hcb] at h2
              · rw [if_neg hbc, if_neg hcb] at h2
                rw [if_neg (hab' ▸ hbc), if_neg (hab' ▸ hcb)]
                exact ih h1 h2

theorem charListLe_nil {as : List Char} (h : charListLe as [] = true) :
    as = [] := by
  cases as with
  | nil => rfl
  | cons a t => exact absurd h (by simp [charListLe])

/-- The descending key order used to sort profiles (Python compares the
keys as strings, i.e. lexicographically on code points). -/
def tsGE (a b : ConnectionInfo) : Prop :=
  charListLe (sort_key b).data (sort_key a).data = true

instance : DecidableRel tsGE := fun a b => by
  unfold tsGE; infer_instance

instance : IsTotal ConnectionInfo tsGE :=
  ⟨fun a b => (charListLe_total (sort_key b).data (sort_key a).data).imp id id⟩

instance : IsTrans ConnectionInfo tsGE :=
  ⟨fun _ _ _ hab hbc => charListLe_trans hbc hab⟩

/-- Function `get_last_connection` over the loaded profile list: `None` for an
empty store, else the head of the list sorted by timestamp descending
(stable, `None` timestamps keyed as `""`). -/
def get_last_connection (connections : List ConnectionInfo) :
    Option ConnectionInfo :=
  if connections.isEmpty then none
  else (connections.insertionSort tsGE).head?

/-! ## `load_connections` (src/db.py lines 29-49)

The backing store is a file holding JSON text; its state is either a
missing file, contents that fail JSON parsing (`json.load` raises
`JSONDecodeError`), or contents parsing to a JSON value.  `try` in
`load_connections` catches only `JSONDecodeError` and `KeyError`; any
other exception raised while building the profiles propagates to the
caller.  `ConnectionInfo.from_dict` calls the dataclass constructor with
`**data`, which raises `TypeError` on an unknown key, on a missing
`name`, or when the element is not a dict at all; the values themselves
are stored unchecked (dataclasses do not validate field types). -/

/-- JSON values, as decoded by `json.load`. -/
inductive Json where
  | null : Json
  | jbool : Bool → Json
  | jnum : Int → Json
  | jstr : String → Json
  | jarr : List Json → Json
  | jobj : List (String × Json) → Json

/-- The Python exceptions that can arise on the load path. -/
inductive PyExc where
  | typeError : PyExc
  | keyError : PyExc
deriving DecidableEq, Repr

/-- A profile as actually built by `ConnectionInfo(**data)` from untyped
JSON: each field holds whatever JSON value the record supplied, or the
dataclass default. -/
structure RawConnectionInfo where
  name : Json
  host : Json
  port : Json
  dbname : Json
  user : Json
  password : Json
  last_connected_at : Json

/-- The keyword parameters accepted by `ConnectionInfo.__init__`. -/
def connectionFields : List String :=
  ["name", "host", "port", "dbname", "user", "password", "last_connected_at"]

/-- Method `ConnectionInfo.from_dict`: default a missing `last_connected_at` to
`None`, then call the constructor with the record's keys — `TypeError`
when the element is not a dict, has a key that is not a constructor
parameter, or misses the required `name`. -/
def from_dict (j : Json) : Except PyExc RawConnectionInfo :=
  match j with
  | .jobj fields =>
    let fields :=
      if fields.any (fun f => f.1 == "last_connected_at") then fields
      else fields ++ [("last_connected_at", Json.null)]
    if fields.all (fun f => connectionFields.contains f.1)
        && fields.any (fun f => f.1 == "name") then
      .ok
        { name := ((fields.find? (fun f => f.1 == "name")).map (fun f => f.2)).getD .null
          host := ((fields.find? (fun f => f.1 == "host")).map (fun f => f.2)).getD (.jstr "localhost")
          port := ((fields.find? (fun f => f.1 == "port")).map (fun f => f.2)).getD (.jnum 5432)
          dbname := ((fields.find? (fun f => f.1 == "dbname")).map (fun f => f.2)).getD (.jstr "postgres")
          user := ((fields.find? (fun f => f.1 == "user")).map (fun f => f.2)).getD (.jstr "postgres")
          password := ((fields.find? (fun f => f.1 == "password")).map (fun f => f.2)).getD (.jstr "")
          last_connected_at := ((fields.find? (fun f => f.1 == "last_connected_at")).map (fun f => f.2)).getD .null }
    else .error .typeError
  | _ => .error .typeError

/-- State of the backing store behind `CONNECTIONS_FILE`. -/
inductive StoreState where
  | missing : StoreState
  | unreadable : StoreState
  | contents : Json → StoreState

/-- Python iteration over the decoded top-level JSON value: lists yield
their elements, dicts their keys, strings their characters; anything else
raises `TypeError`. -/
def pyIter (j : Json) : Except PyExc (List Json) :=
  match j with
  | .jarr elems => .ok elems
  | .jobj fields => .ok (fields.map (fun f => .jstr f.1))
  | .jstr s => .ok (s.data.map (fun c => .jstr (String.mk [c])))
  | _ => .error .typeError

/-- Build the profile list element by element, propagating the first
exception. -/
def buildProfiles : List Json → Except PyExc (List RawConnectionInfo)
  | [] => .ok []
  | j :: rest =>
    match from_dict j with
    | .error e => .error e
    | .ok c =>
      match buildProfiles rest with
      | .error e => .error e
      | .ok cs => .ok (c :: cs)

/-- Function `load_connections`: empty list for a missing file; `try` around
parsing and record construction catches `JSONDecodeError` and `KeyError`
(yielding the empty list); any other exception propagates. -/
def load_connections (store : StoreState) :
    Except PyExc (List RawConnectionInfo) :=
  match store with
  | .missing => .ok []
  | .unreadable => .ok []
  | .contents j =>
    match pyIter j with
    | .error e => if e == .keyError then .ok [] else .error e
    | .ok elems =>
      match buildProfiles elems with
      | .error e => if e == .keyError then .ok [] else .error e
      | .ok cs => .ok cs

/-! ## `Database.connect` / `disconnect` (src/db.py lines 88-113)

Connection handles are modelled by numeric ids; `closed` records the
handles closed so far.  Whether `psycopg.connect` succeeds is
environmental: `outcome` is the new handle on success, `none` when it
raises (the exception propagates to the caller, so `connect` returns
whether it completed). -/

/-- Session-owned state of `Database`: the open handle, the active
profile, and (ghost) the handles closed so far. -/
structure SessionState where
  conn : Option Nat
  info : Option ConnectionInfo
  closed : List Nat
deriving DecidableEq, Repr

/-- Constructor `Database.__init__`. -/
def SessionState.init : SessionState := ⟨none, none, []⟩

/-- Method `Database.disconnect`: close and discard any open handle (close-time
errors swallowed); always leaves the session disconnected. -/
def SessionState.disconnect (s : SessionState) : SessionState :=
  match s.conn with
  | some h => { conn := none, info := none, closed := s.closed ++ [h] }
  | none => s

/-- Method `Database.connect`: disconnect first, then open the new connection —
on success store the handle and the profile, on failure the exception
propagates with the fields as `disconnect` left them.  The returned
`Bool` tells whether `connect` completed without raising. -/
def SessionState.connect (s : SessionState) (i : ConnectionInfo)
    (outcome : Option Nat) : SessionState × Bool :=
  let s1 := s.disconnect
  match outcome with
  | some h => ({ s1 with conn := some h, info := some i }, true)
  | none => (s1, false)

/-- Method `Database.is_connected`: a handle is present and not closed. -/
def SessionState.is_connected (s : SessionState) : Bool :=
  match s.conn with
  | some h => !(s.closed.contains h)
  | none => false

/-! ## Dict lemmas -/

theorem dictGet_eq_none {K V : Type} [DecidableEq K] {m : List (K × V)} {k : K}
    (h : k ∉ m.map (fun p => p.1)) : dictGet m k = none := by
  induction m with
  | nil => rfl
  | cons p rest ih =>
    simp only [List.map_cons, List.mem_cons] at h
    push_neg at h
    have hpk : ¬p.1 = k := fun hc => h.1 hc.symm
    simp [dictGet, hpk, ih h.2]

theorem dictGet_dictSet_self {K V : Type} [DecidableEq K] (m : List (K × V))
    (k : K) (v : V) : dictGet (dictSet m k v) k = some v := by
  induction m with
  | nil => simp [dictSet, dictGet]
  | cons p rest ih =>
    by_cases h : p.1 = k <;> simp [dictSet, dictGet, h, ih]

theorem dictGet_dictSet_ne {K V : Type} [DecidableEq K] (m : List (K × V))
    (k k' : K) (v : V) (h : k' ≠ k) :
    dictGet (dictSet m k v) k' = dictGet m k' := by
  have hkk : ¬k = k' := fun hc => h hc.symm
  induction m with
  | nil => simp [dictSet, dictGet, hkk]
  | cons p rest ih =>
    by_cases hp : p.1 = k
    · simp [dictSet, dictGet, hp, hkk]
    · simp [dictSet, dictGet, hp, ih]

theorem dictGet_dictDel_self {K V : Type} [DecidableEq K] {m : List (K × V)}
    {k : K} (hn : keysNodup m) : dictGet (dictDel m k) k = none := by
  induction m with
  | nil => rfl
  | cons p rest ih =>
    simp only [keysNodup, List.map_cons, List.nodup_cons] at hn
    by_cases hp : p.1 = k
    · simpa [dictDel, hp] using dictGet_eq_none (hp ▸ hn.1)
    · simp [dictDel, dictGet, hp, ih hn.2]

theorem dictGet_dictDel_ne {K V : Type} [DecidableEq K] (m : List (K × V))
    (k k' : K) (h : k' ≠ k) : dictGet (dictDel m k) k' = dictGet m k' := by
  have hkk : ¬k = k' := fun hc => h hc.symm
  induction m with
  | nil => rfl
  | cons p rest ih =>
    by_cases hp : p.1 = k
    · simp [dictDel, dictGet, hp, hkk]
    · simp [dictDel, dictGet, hp, ih]

theorem mem_keys_dictSet {K V : Type} [DecidableEq K] (m : List (K × V))
    (k k' : K) (v : V) :
    k' ∈ (dictSet m k v).map (fun p => p.1) ↔
      k' = k ∨ k' ∈ m.map (fun p => p.1) := by
  induction m with
  | nil => simp [dictSet]
  | cons p rest ih =>
    by_cases hp : p.1 = k
    · simp [dictSet, hp]
    · simp [dictSet, hp, ih]
      tauto

theorem mem_keys_dictDel {K V : Type} [DecidableEq K] {m : List (K × V)}
    {k k' : K} (h : k' ∈ (dictDel m k).map (fun p => p.1)) :
    k' ∈ m.map (fun p => p.1) := by
  induction m with
  | nil => exact h
  | cons p rest ih =>
    by_cases hp : p.1 = k
    · simp only [dictDel, if_pos hp] at h
      simp [h]
    · simp only [dictDel, if_neg hp, List.map_cons, List.mem_cons] at h ⊢
      tauto

theorem keysNodup_dictSet {K V : Type} [DecidableEq K] {m : List (K × V)}
    {k : K} {v : V} (hn : keysNodup m) : keysNodup (dictSet m k v) := by
  induction m with
  | nil => simp [keysNodup, dictSet]
  | cons p rest ih =>
    simp only [keysNodup, List.map_cons, List.nodup_cons] at hn
    by_cases hp : p.1 = k
    · simp only [dictSet, if_pos hp, keysNodup, List.map_cons, List.nodup_cons]
      exact ⟨hp ▸ hn.1, hn.2⟩
    · simp only [dictSet, if_neg hp, keysNodup, List.map_cons, List.nodup_cons]
      exact ⟨fun hm => ((mem_keys_dictSet rest k p.1 v).mp hm).elim hp hn.1,
        ih hn.2⟩

theorem keysNodup_dictDel {K V : Type} [DecidableEq K] {m : List (K × V)}
    {k : K} (hn : keysNodup m) : keysNodup (dictDel m k) := by
  induction m with
  | nil => simpa [dictDel] using hn
  | cons p rest ih =>
    simp only [keysNodup, List.map_cons, List.nodup_cons] at hn
    by_cases hp : p.1 = k
    · simpa [dictDel, hp, keysNodup] using hn.2
    · simp only [dictDel, if_neg hp, keysNodup, List.map_cons, List.nodup_cons]
      exact ⟨fun hm => hn.1 (mem_keys_dictDel hm), ih hn.2⟩

/-! ## Claims about the query rewriting and the resolver -/

/-- C2: for every query text whose trimmed, trailing-semicolon-stripped
form has the case-insensitive prefix SELECT, if the text contains no
case-insensitive occurrence of LIMIT then the statement sent to the
server is that text with exactly one ` LIMIT 1000` appended; if it
already contains LIMIT it is sent unmodified apart from the trimming;
text not classified as SELECT is never given a LIMIT. -/
theorem claim_C2 (query : String) :
    (is_select query = true → has_limit query = false →
      executed_statement query = query_stripped query ++ " LIMIT 1000".data) ∧
    (is_select query = true → has_limit query = true →
      executed_statement query = query_stripped query) ∧
    (is_select query = false →
      executed_statement query = query_stripped query) := by
  refine ⟨fun h1 h2 => ?_, fun h1 h2 => ?_, fun h1 => ?_⟩
  · simp [executed_statement, h1, h2]
  · simp [executed_statement, h1, h2]
  · simp [executed_statement, h1]

theorem claim_C2_witness :
    (is_select "select * from t;" = true ∧ has_limit "select * from t;" = false ∧
      executed_statement "select * from t;" = "select * from t LIMIT 1000".data) ∧
    (is_select "SELECT 1 LIMIT 5 ;" = true ∧ has_limit "SELECT 1 LIMIT 5 ;" = true ∧
      executed_statement "SELECT 1 LIMIT 5 ;" = "SELECT 1 LIMIT 5 ".data) ∧
    (is_select "UPDATE t SET x=1" = false ∧
      executed_statement "UPDATE t SET x=1" = "UPDATE t SET x=1".data) :=
  ⟨⟨by decide, by decide, (claim_C2 "select * from t;").1 (by decide) (by decide)⟩,
   ⟨by decide, by decide, (claim_C2 "SELECT 1 LIMIT 5 ;").2.1 (by decide) (by decide)⟩,
   ⟨by decide, (claim_C2 "UPDATE t SET x=1").2.2 (by decide)⟩⟩

/-- C5: for every SQL text whose uppercased form contains the
space-delimited token ` JOIN `, the resolver returns `("", "")`. -/
theorem claim_C5 (query : String)
    (h : containsSub " JOIN ".data (pyUpper query.data) = true) :
    parse_table_from_query query = ("", "") := by
  unfold parse_table_from_query
  simp [h]

theorem claim_C5_witness :
    containsSub " JOIN ".data (pyUpper "SELECT * FROM a join b ON a.x = b.x".data)
        = true ∧
    parse_table_from_query "SELECT * FROM a join b ON a.x = b.x" = ("", "") :=
  ⟨by decide, claim_C5 "SELECT * FROM a join b ON a.x = b.x" (by decide)⟩

/-- C6: resolver round-trip — `SELECT * FROM "s"."t"` resolves to
`("s","t")`, `SELECT * FROM t` to `("public","t")` (a single identifier
gets schema `public`), `SELECT * FROM a.b WHERE x=1` to `("a","b")` — and
the four patterns are tried in priority order with the first successful
match winning. -/
theorem claim_C6 :
    parse_table_from_query "SELECT * FROM \"s\".\"t\"" = ("s", "t") ∧
    parse_table_from_query "SELECT * FROM t" = ("public", "t") ∧
    parse_table_from_query "SELECT * FROM a.b WHERE x=1" = ("a", "b") ∧
    (∀ q r, containsSub " JOIN ".data (pyUpper q.data) = false →
      searchList matchP1At q.data = some r →
      parse_table_from_query q = r) ∧
    (∀ q r, containsSub " JOIN ".data (pyUpper q.data) = false →
      searchList matchP1At q.data = none →
      searchList matchP2At q.data = some r →
      parse_table_from_query q = r) ∧
    (∀ q t, containsSub " JOIN ".data (pyUpper q.data) = false →
      searchList matchP1At q.data = none →
      searchList matchP2At q.data = none →
      searchList matchP3At q.data = some t →
      parse_table_from_query q = ("public", t)) ∧
    (∀ q t, containsSub " JOIN ".data (pyUpper q.data) = false →
      searchList matchP1At q.data = none →
      searchList matchP2At q.data = none →
      searchList matchP3At q.data = none →
      searchList matchP4At q.data = some t →
      parse_table_from_query q = ("public", t)) := by
  refine ⟨by decide, by decide, by decide, ?_, ?_, ?_, ?_⟩
  · intro q r hj h1
    obtain ⟨s, t⟩ := r
    simp [parse_table_from_query, hj, h1]
  · intro q r hj h1 h2
    obtain ⟨s, t⟩ := r
    simp [parse_table_from_query, hj, h1, h2]
  · intro q t hj h1 h2 h3
    simp [parse_table_from_query, hj, h1, h2, h3]
  · intro q t hj h1 h2 h3 h4
    simp [parse_table_from_query, hj, h1, h2, h3, h4]

theorem claim_C6_witness :
    parse_table_from_query "SELECT id FROM a.b WHERE x=1" = ("a", "b") :=
  claim_C6.2.2.2.2.1 "SELECT id FROM a.b WHERE x=1" ("a", "b")
    (by decide) (by decide) (by decide)

/-! ## Claims about `execute_update` and the commit flow -/

/-- C4: contract of `execute_update` on a connected session — an empty
primary-key column list yields the no-primary-key error with the state
untouched; an execution error rolls the open transaction back and returns
the error text; success returns no error and leaves the transaction open
(the statement appended, nothing made durable); all paths return
(the embedding is a total function: no exception escapes). -/
theorem claim_C4 (db : Db) (fail : UpdateOp → Option String)
    (schema table : String) (pk_columns : List String) (pk_values : List PyVal)
    (column : String) (new_value : PyVal) (hconn : db.connected = true) :
    (pk_columns = [] →
      db.execute_update fail schema table pk_columns pk_values column new_value =
        (some "No primary key - cannot update", db)) ∧
    (∀ e, pk_columns ≠ [] →
      fail ⟨schema, table, pk_columns, pk_values, column, new_value⟩ = some e →
      db.execute_update fail schema table pk_columns pk_values column new_value =
        (some e, { db with pending := [] })) ∧
    (pk_columns ≠ [] →
      fail ⟨schema, table, pk_columns, pk_values, column, new_value⟩ = none →
      db.execute_update fail schema table pk_columns pk_values column new_value =
        (none, { db with pending :=
          db.pending ++ [⟨schema, table, pk_columns, pk_values, column, new_value⟩] })) := by
  unfold Db.execute_update
  refine ⟨fun hpk => ?_, fun e hpk hf => ?_, fun hpk hf => ?_⟩
  · simp [hconn, hpk]
  · simp [hconn, hpk, hf]
  · simp [hconn, hpk, hf]

theorem claim_C4_witness :
    Db.execute_update ⟨true, [], []⟩ (fun _ => none) "public" "t" [] []
        "c" PyVal.vnull =
      (some "No primary key - cannot update", ⟨true, [], []⟩) :=
  (claim_C4 ⟨true, [], []⟩ (fun _ => none) "public" "t" [] [] "c" PyVal.vnull
    rfl).1 rfl

/-! ## Claims about the profile store and the session -/

/-- C8: the claim asks that `load` return an empty list and never raise
for every missing or corrupt backing store.  The code satisfies this for
a missing file and for contents that fail JSON parsing, but a corrupt
store holding the JSON text `[{}]` (a record list with a malformed
record) raises `TypeError`: `ConnectionInfo(**{})` lacks the required
`name` argument, and only `JSONDecodeError` and `KeyError` are caught. -/
theorem claim_C8_bug :
    load_connections (.contents (.jarr [.jobj []])) = .error .typeError ∧
    load_connections .missing = .ok [] ∧
    load_connections .unreadable = .ok [] :=
  ⟨rfl, rfl, rfl⟩

/-- The reachable-session invariant: a null connection handle means a
null active profile.  It holds initially and is preserved by `connect`
(either outcome) and `disconnect`. -/
theorem session_invariant_preserved (s : SessionState) (i : ConnectionInfo)
    (o : Option Nat) (hinv : s.conn = none → s.info = none) :
    (SessionState.init.conn = none → SessionState.init.info = none) ∧
    (s.disconnect.conn = none → s.disconnect.info = none) ∧
    ((s.connect i o).1.conn = none → (s.connect i o).1.info = none) := by
  refine ⟨fun _ => rfl, ?_, ?_⟩
  · cases hs : s.conn with
    | some h => simp [SessionState.disconnect, hs]
    | none => simpa [SessionState.disconnect, hs] using hinv hs
  · cases o with
    | some h => simp [SessionState.connect]
    | none =>
      cases hs : s.conn with
      | some h' => simp [SessionState.connect, SessionState.disconnect, hs]
      | none =>
        simpa [SessionState.connect, SessionState.disconnect, hs] using hinv hs

/-- C10: when opening the new connection raises during `connect`, the
session is left fully disconnected — the previously open handle has been
closed by the leading `disconnect`, the connection handle and active
profile are both null, `is_connected` reports false, and the exception
propagates (`connect` does not complete). -/
theorem claim_C10 (s : SessionState) (i : ConnectionInfo)
    (hinv : s.conn = none → s.info = none) :
    (s.connect i none).1.conn = none ∧
    (s.connect i none).1.info = none ∧
    (s.connect i none).1.is_connected = false ∧
    (s.connect i none).2 = false ∧
    (∀ h, s.conn = some h → h ∈ (s.connect i none).1.closed) := by
  cases hs : s.conn with
  | some h =>
    refine ⟨?_, ?_, ?_, ?_, ?_⟩ <;>
      simp [SessionState.connect, SessionState.disconnect,
        SessionState.is_connected, hs]
  | none =>
    refine ⟨?_, ?_, ?_, ?_, ?_⟩ <;>
      simp [SessionState.connect, SessionState.disconnect,
        SessionState.is_connected, hs, hinv hs]

theorem claim_C10_witness :
    let s : SessionState := ⟨some 7, some ⟨"n", "h", 5432, "d", "u", "", none⟩, []⟩
    let i : ConnectionInfo := ⟨"n2", "h2", 5433, "d2", "u2", "", none⟩
    (s.connect i none).1.conn = none ∧
    (s.connect i none).1.info = none ∧
    (s.connect i none).1.is_connected = false ∧
    (s.connect i none).2 = false ∧
    7 ∈ (s.connect i none).1.closed := by
  have h := claim_C10 ⟨some 7, some ⟨"n", "h", 5432, "d", "u", "", none⟩, []⟩
    ⟨"n2", "h2", 5433, "d2", "u2", "", none⟩ (by intro hc; cases hc)
  exact ⟨h.1, h.2.1, h.2.2.1, h.2.2.2.1, h.2.2.2.2 7 rfl⟩

/-! ## Commit atomicity -/

theorem execute_update_preserves (db : Db) (fail : UpdateOp → Option String)
    (schema table : String) (pkcs : List String) (pkvs : List PyVal)
    (col : String) (nv : PyVal) :
    (db.execute_update fail schema table pkcs pkvs col nv).2.durable = db.durable ∧
    (db.execute_update fail schema table pkcs pkvs col nv).2.connected
      = db.connected := by
  unfold Db.execute_update
  by_cases hc : db.connected
  · by_cases hp : pkcs.isEmpty
    · simp [hc, hp]
    · cases hf : fail ⟨schema, table, pkcs, pkvs, col, nv⟩ <;> simp [hc, hp, hf]
  · simp [hc]

theorem run_edits_state (fail : UpdateOp → Option String) (schema table : String)
    (pkcs : List String) (es : List (List PyVal × String × PyVal)) :
    ∀ db : Db,
      (run_edits fail schema table pkcs db es).1.durable = db.durable ∧
      (run_edits fail schema table pkcs db es).1.connected = db.connected := by
  induction es with
  | nil => intro db; exact ⟨rfl, rfl⟩
  | cons e rest ih =>
    intro db
    have h1 := execute_update_preserves db fail schema table pkcs e.1 e.2.1 e.2.2
    have h2 := ih (db.execute_update fail schema table pkcs e.1 e.2.1 e.2.2).2
    simp only [run_edits]
    exact ⟨h2.1.trans h1.1, h2.2.trans h1.2⟩

theorem run_edits_errors (fail : UpdateOp → Option String) (schema table : String)
    (pkcs : List String) (hpe : pkcs.isEmpty = false)
    (es : List (List PyVal × String × PyVal)) :
    ∀ db : Db, db.connected = true →
      (run_edits fail schema table pkcs db es).2 =
        es.filterMap (fun e => fail (mkOp schema table pkcs e)) := by
  induction es with
  | nil => intro db _; rfl
  | cons e rest ih =>
    intro db hc
    have hfst : (db.execute_update fail schema table pkcs e.1 e.2.1 e.2.2).1 =
        fail (mkOp schema table pkcs e) := by
      unfold Db.execute_update mkOp
      cases hf : fail ⟨schema, table, pkcs, e.1, e.2.1, e.2.2⟩ <;>
        simp [hc, hpe, hf]
    have hc2 : (db.execute_update fail schema table pkcs e.1 e.2.1 e.2.2).2.connected
        = true :=
      (execute_update_preserves db fail schema table pkcs e.1 e.2.1 e.2.2).2.trans hc
    simp only [run_edits, List.filterMap_cons]
    rw [ih _ hc2, hfst]
    cases hf : fail (mkOp schema table pkcs e) <;> simp

theorem run_edits_success (fail : UpdateOp → Option String) (schema table : String)
    (pkcs : List String) (hpe : pkcs.isEmpty = false)
    (es : List (List PyVal × String × PyVal)) :
    ∀ db : Db, db.connected = true →
      (∀ e ∈ es, fail (mkOp schema table pkcs e) = none) →
      (run_edits fail schema table pkcs db es).1 =
        { db with pending := db.pending ++ es.map (mkOp schema table pkcs) } := by
  induction es with
  | nil => intro db _ _; simp [run_edits]
  | cons e rest ih =>
    intro db hc hall
    have hstep : db.execute_update fail schema table pkcs e.1 e.2.1 e.2.2 =
        (none, { db with pending := db.pending ++ [mkOp schema table pkcs e] }) := by
      have hf := hall e (List.mem_cons_self e rest)
      unfold Db.execute_update
      unfold mkOp at hf
      simp [hc, hpe, hf, mkOp]
    simp only [run_edits]
    rw [hstep]
    rw [ih _ (by simp [hc]) (fun e' he' => hall e' (List.mem_cons_of_mem _ he'))]
    simp [List.append_assoc]

/-- C1: commit atomicity — on a connected session with primary keys
present, either every per-cell UPDATE succeeds, all pending edits are
cleared and the whole transaction (the updates plus anything already
pending) is committed; or some UPDATE fails, the edit set is left exactly
as it was, nothing new becomes durable, the transaction is rolled back,
and the first encountered error is surfaced. -/
theorem claim_C1 (fail : UpdateOp → Option String) (g : GridState) (db : Db)
    (hconn : db.connected = true) (hpk : g.pk_columns ≠ []) :
    ((∀ e ∈ g.edits, fail (mkOp g.schema g.table g.pk_columns e) = none) →
      commit_changes fail g db =
        ({ g with edits := [] },
          { db with
              pending := ([] : List UpdateOp),
              durable := db.durable ++ db.pending ++
                g.edits.map (mkOp g.schema g.table g.pk_columns) }, none)) ∧
    ((∃ e ∈ g.edits, (fail (mkOp g.schema g.table g.pk_columns e)).isSome) →
      (commit_changes fail g db).1 = g ∧
      (commit_changes fail g db).2.1.durable = db.durable ∧
      (commit_changes fail g db).2.1.pending = [] ∧
      (commit_changes fail g db).2.2 =
        some ("Update failed: " ++
          (g.edits.filterMap
            (fun e => fail (mkOp g.schema g.table g.pk_columns e))).headD "")) := by
  have hpe : g.pk_columns.isEmpty = false := by
    cases hl : g.pk_columns with
    | nil => exact absurd hl hpk
    | cons a l => rfl
  constructor
  · intro hall
    by_cases hed : g.edits.isEmpty
    · have hnil : g.edits = [] := by
        cases hl : g.edits with
        | nil => rfl
        | cons a l => rw [hl] at hed; exact absurd hed (by simp)
      obtain ⟨ge, gs, gt, gp⟩ := g
      simp only at hnil
      subst hnil
      simp [commit_changes, Db.commit, hconn]
    · have herr := run_edits_errors fail g.schema g.table g.pk_columns hpe
        g.edits db hconn
      have hsucc := run_edits_success fail g.schema g.table g.pk_columns hpe
        g.edits db hconn hall
      have herrnil :
          g.edits.filterMap (fun e => fail (mkOp g.schema g.table g.pk_columns e))
            = [] := by
        rw [List.filterMap_eq_nil_iff]
        exact hall
      simp only [commit_changes, hed, Bool.not_false, if_pos rfl, hpe,
        Bool.false_eq_true, if_neg (by simp [hed] : ¬g.edits.isEmpty = true)]
      rw [herr] at *
      simp [herrnil, hsucc, Db.commit, hconn, hpe]
  · rintro ⟨e0, he0, hf0⟩
    have hed : g.edits.isEmpty = false := by
      cases hl : g.edits with
      | nil => rw [hl] at he0; cases he0
      | cons a l => rfl
    obtain ⟨msg, hmsg⟩ : ∃ m, fail (mkOp g.schema g.table g.pk_columns e0) = some m :=
      Option.isSome_iff_exists.mp hf0
    have herr := run_edits_errors fail g.schema g.table g.pk_columns hpe
      g.edits db hconn
    have hmem : msg ∈ g.edits.filterMap
        (fun e => fail (mkOp g.schema g.table g.pk_columns e)) :=
      List.mem_filterMap.mpr ⟨e0, he0, hmsg⟩
    have herrne :
        (g.edits.filterMap
          (fun e => fail (mkOp g.schema g.table g.pk_columns e))).isEmpty = false := by
      cases hl : g.edits.filterMap
          (fun e => fail (mkOp g.schema g.table g.pk_columns e)) with
      | nil => rw [hl] at hmem; cases hmem
      | cons a l => rfl
    have hst := run_edits_state fail g.schema g.table g.pk_columns g.edits db
    simp only [commit_changes, hed, hpe, herr, herrne]
    simp [Db.rollback, hst.2, hconn, hst.1]

theorem claim_C1_witness :
    commit_changes (fun _ => none)
      ⟨[([PyVal.vint 1], "c", PyVal.vstr "v")], "public", "t", ["id"]⟩
      ⟨true, [], []⟩ =
      (⟨[], "public", "t", ["id"]⟩,
        ⟨true, [], [⟨"public", "t", ["id"], [PyVal.vint 1], "c", PyVal.vstr "v"⟩]⟩,
        none) := by
  have h := (claim_C1 (fun _ => none)
    ⟨[([PyVal.vint 1], "c", PyVal.vstr "v")], "public", "t", ["id"]⟩
    ⟨true, [], []⟩ rfl (by simp)).1 (fun e _ => rfl)
  simpa [mkOp] using h

/-! ## The edit overlay invariant -/

theorem countP_dictGet {K V : Type} [DecidableEq K] {m : List (K × V)}
    (hn : keysNodup m) (k : K) :
    m.countP (fun p => decide (p.1 = k)) =
      if (dictGet m k).isSome then 1 else 0 := by
  induction m with
  | nil => rfl
  | cons p rest ih =>
    simp only [keysNodup, List.map_cons, List.nodup_cons] at hn
    by_cases hp : p.1 = k
    · have hrest : dictGet rest k = none := dictGet_eq_none (hp ▸ hn.1)
      rw [List.countP_cons, ih hn.2, hrest]
      simp [dictGet, hp]
    · rw [List.countP_cons, ih hn.2]
      simp [dictGet, hp]

/-- The original fetched value at a coordinate. -/
def originalAt (m : ResultsModel) (row col : Nat) : PyVal :=
  Row.get (m.rows.getD row []) (m.columns.getD col "")

/-- Apply a sequence of cell writes through `setData`. -/
def applyWrites (m : ResultsModel) : List (Nat × Nat × PyVal) → ResultsModel
  | [] => m
  | w :: ws => applyWrites (m.setData w.1 w.2.1 w.2.2).1 ws

/-- The value of the last write at a coordinate in a write sequence. -/
def lastWriteAt (ws : List (Nat × Nat × PyVal)) (row col : Nat) : Option PyVal :=
  (ws.reverse.find? (fun w => decide (w.1 = row) && decide (w.2.1 = col))).map
    (fun w => w.2.2)

theorem setData_preserves (m : ResultsModel) (row col : Nat) (v : PyVal) :
    ((m.setData row col v).1).rows = m.rows ∧
    ((m.setData row col v).1).columns = m.columns := by
  unfold ResultsModel.setData
  split
  · split
    · split
      · exact ⟨rfl, rfl⟩
      · exact ⟨rfl, rfl⟩
    · exact ⟨rfl, rfl⟩
  · exact ⟨rfl, rfl⟩

theorem setData_keysNodup (m : ResultsModel) (row col : Nat) (v : PyVal)
    (hn : keysNodup m.edits) : keysNodup ((m.setData row col v).1).edits := by
  unfold ResultsModel.setData
  split
  · split
    · split
      · exact keysNodup_dictDel hn
      · exact hn
    · exact keysNodup_dictSet hn
  · exact hn

theorem setData_edits_lookup (m : ResultsModel) (row col : Nat) (v : PyVal)
    (hn : keysNodup m.edits) (hv : m.validIndex row col = true) (r c : Nat) :
    dictGet ((m.setData row col v).1).edits (r, c) =
      if (r, c) = (row, col) then
        (if pyEq v (originalAt m row col) = true then none else some v)
      else dictGet m.edits (r, c) := by
  unfold ResultsModel.setData
  rw [if_pos hv]
  by_cases heq : pyEq v (originalAt m row col) = true
  · have heq' : pyEq v (Row.get (m.rows.getD row []) (m.columns.getD col ""))
        = true := heq
    rw [if_pos heq']
    by_cases hpresent : (dictGet m.edits (row, col)).isSome = true
    · rw [if_pos hpresent]
      by_cases hk : (r, c) = (row, col)
      · rw [if_pos hk, if_pos heq, hk]
        exact dictGet_dictDel_self hn
      · rw [if_neg hk]
        exact dictGet_dictDel_ne m.edits (row, col) (r, c) hk
    · rw [if_neg hpresent]
      by_cases hk : (r, c) = (row, col)
      · rw [if_pos hk, if_pos heq, hk]
        cases habs : dictGet m.edits (row, col) with
        | none => rfl
        | some u => rw [habs] at hpresent; exact absurd rfl hpresent
      · rw [if_neg hk]
  · have heq' : ¬(pyEq v (Row.get (m.rows.getD row []) (m.columns.getD col ""))
        = true) := heq
    rw [if_neg heq']
    by_cases hk : (r, c) = (row, col)
    · rw [if_pos hk, if_neg heq, hk]
      exact dictGet_dictSet_self m.edits (row, col) v
    · rw [if_neg hk]
      exact dictGet_dictSet_ne m.edits (row, col) (r, c) v hk

theorem applyWrites_spec (ws : List (Nat × Nat × PyVal)) :
    ∀ m : ResultsModel, keysNodup m.edits →
      (∀ w ∈ ws, w.1 < m.rows.length ∧ w.2.1 < m.columns.length) →
      (applyWrites m ws).rows = m.rows ∧
      (applyWrites m ws).columns = m.columns ∧
      keysNodup (applyWrites m ws).edits ∧
      ∀ r c, dictGet (applyWrites m ws).edits (r, c) =
        (match lastWriteAt ws r c with
         | some v => if pyEq v (originalAt m r c) = true then none else some v
         | none => dictGet m.edits (r, c)) := by
  induction ws with
  | nil =>
    intro m hn _
    exact ⟨rfl, rfl, hn, fun r c => by simp [applyWrites, lastWriteAt, List.find?]⟩
  | cons w rest ih =>
    intro m hn hw
    have hwv : m.validIndex w.1 w.2.1 = true := by
      have h := hw w (List.mem_cons_self w rest)
      simp [ResultsModel.validIndex, h.1, h.2]
    have hpres := setData_preserves m w.1 w.2.1 w.2.2
    have hn' := setData_keysNodup m w.1 w.2.1 w.2.2 hn
    have hw' : ∀ x ∈ rest, x.1 < ((m.setData w.1 w.2.1 w.2.2).1).rows.length ∧
        x.2.1 < ((m.setData w.1 w.2.1 w.2.2).1).columns.length := by
      intro x hx
      rw [hpres.1, hpres.2]
      exact hw x (List.mem_cons_of_mem _ hx)
    obtain ⟨hrows, hcols, hnf, hlook⟩ := ih (m.setData w.1 w.2.1 w.2.2).1 hn' hw'
    refine ⟨hrows.trans hpres.1, hcols.trans hpres.2, hnf, fun r c => ?_⟩
    have horig : originalAt (m.setData w.1 w.2.1 w.2.2).1 r c = originalAt m r c := by
      unfold originalAt
      rw [hpres.1, hpres.2]
    have hstep := setData_edits_lookup m w.1 w.2.1 w.2.2 hn hwv r c
    have hlast : lastWriteAt (w :: rest) r c =
        ((lastWriteAt rest r c).or
          (if (r, c) = (w.1, w.2.1) then some w.2.2 else none)) := by
      unfold lastWriteAt
      rw [List.reverse_cons, List.find?_append]
      cases hfind : (rest.reverse.find?
          (fun x => decide (x.1 = r) && decide (x.2.1 = c))) with
      | some u => simp [hfind]
      | none =>
        by_cases hk : (r, c) = (w.1, w.2.1)
        · have hr' : r = w.1 := congrArg Prod.fst hk
          have hc' : c = w.2.1 := congrArg Prod.snd hk
          simp [hfind, List.find?, hr', hc', hk]
        · have hpred : ¬(w.1 = r ∧ w.2.1 = c) := by
            intro hc0
            exact hk (by rw [hc0.1, hc0.2])
          by_cases hr : w.1 = r
          · have hc2 : ¬(w.2.1 = c) := fun hc0 => hpred ⟨hr, hc0⟩
            have hc2' : ¬(c = w.2.1) := fun hc0 => hc2 hc0.symm
            simp [hfind, List.find?, hr, hc2, hc2', hk]
          · simp [hfind, List.find?, hr, hk]
    simp only [applyWrites]
    rw [hlook r c]
    simp only [horig, hstep, hlast]
    cases hrest : lastWriteAt rest r c with
    | some v => simp
    | none =>
      by_cases hk : (r, c) = (w.1, w.2.1)
      · have hr' : r = w.1 := congrArg Prod.fst hk
        have hc' : c = w.2.1 := congrArg Prod.snd hk
        subst hr'
        subst hc'
        simp
      · simp [hk]

/-- C3: edit-overlay invariant — starting from a freshly loaded result
set, after any sequence of in-bounds cell writes a pending edit exists at
a coordinate iff the last value written there differs (under Python `==`)
from the original fetched value, and then it holds that last written
value; the edit dict holds exactly one entry for the coordinate when an
edit exists and none otherwise; and reading the cell returns the pending
edit when one exists, else the original value. -/
theorem claim_C3 (m0 : ResultsModel) (ws : List (Nat × Nat × PyVal)) (r c : Nat)
    (h0 : m0.edits = [])
    (hw : ∀ w ∈ ws, w.1 < m0.rows.length ∧ w.2.1 < m0.columns.length) :
    (dictGet (applyWrites m0 ws).edits (r, c) =
      (match lastWriteAt ws r c with
       | some v => if pyEq v (originalAt m0 r c) = true then none else some v
       | none => none)) ∧
    ((applyWrites m0 ws).edits.countP (fun p => decide (p.1 = (r, c))) =
      if (dictGet (applyWrites m0 ws).edits (r, c)).isSome then 1 else 0) ∧
    (r < m0.rows.length → c < m0.columns.length →
      (applyWrites m0 ws).dataEdit r c =
        (dictGet (applyWrites m0 ws).edits (r, c)).getD (originalAt m0 r c)) := by
  have hn0 : keysNodup m0.edits := by
    rw [h0]
    exact List.nodup_nil
  obtain ⟨hrows, hcols, hnf, hlook⟩ := applyWrites_spec ws m0 hn0 hw
  refine ⟨?_, countP_dictGet hnf (r, c), fun hr hc => ?_⟩
  · rw [hlook r c, h0]
    cases lastWriteAt ws r c with
    | some v => rfl
    | none => rfl
  · unfold ResultsModel.dataEdit
    have hv : (applyWrites m0 ws).validIndex r c = true := by
      simp [ResultsModel.validIndex, hrows, hcols, hr, hc]
    rw [if_pos hv]
    cases hg : dictGet (applyWrites m0 ws).edits (r, c) with
    | some v => rfl
    | none =>
      unfold originalAt
      rw [hrows, hcols]
      rfl

theorem claim_C3_witness :
    (dictGet
      (applyWrites
        ⟨[[("a", PyVal.vint 1)]], ["a"], [], [], [], "", "", false⟩
        [(0, 0, PyVal.vint 2), (0, 0, PyVal.vint 2)]).edits (0, 0) =
      some (PyVal.vint 2)) ∧
    ((applyWrites
        ⟨[[("a", PyVal.vint 1)]], ["a"], [], [], [], "", "", false⟩
        [(0, 0, PyVal.vint 2), (0, 0, PyVal.vint 2)]).edits.countP
      (fun p => decide (p.1 = ((0, 0) : Nat × Nat))) = 1) ∧
    ((applyWrites
        ⟨[[("a", PyVal.vint 1)]], ["a"], [], [], [], "", "", false⟩
        [(0, 0, PyVal.vint 2), (0, 0, PyVal.vint 2)]).dataEdit 0 0 =
      PyVal.vint 2) ∧
    (dictGet
      (applyWrites
        ⟨[[("a", PyVal.vint 1)]], ["a"], [], [], [], "", "", false⟩
        [(0, 0, PyVal.vint 2), (0, 0, PyVal.vint 1)]).edits (0, 0) = none) := by
  have h2 := claim_C3 ⟨[[("a", PyVal.vint 1)]], ["a"], [], [], [], "", "", false⟩
    [(0, 0, PyVal.vint 2), (0, 0, PyVal.vint 2)] 0 0 rfl
    (by intro w hw; fin_cases hw <;> exact ⟨by decide, by decide⟩)
  have h1 := claim_C3 ⟨[[("a", PyVal.vint 1)]], ["a"], [], [], [], "", "", false⟩
    [(0, 0, PyVal.vint 2), (0, 0, PyVal.vint 1)] 0 0 rfl
    (by intro w hw; fin_cases hw <;> exact ⟨by decide, by decide⟩)
  refine ⟨?_, ?_, ?_, ?_⟩
  · rw [h2.1]; decide
  · rw [h2.2.1, h2.1]; decide
  · rw [h2.2.2 (by decide) (by decide), h2.1]; decide
  · rw [h1.1]; decide

/-! ## Most recently used profile -/

/-- C7: on any profile list whose present timestamps are well-formed
(ISO-8601, hence non-empty), `get_last_connection` returns nothing for an
empty list, something for a non-empty list, and the returned profile is a
stored profile with a maximal sort key; a profile without a timestamp is
never returned while some profile has one. -/
theorem claim_C7 (l : List ConnectionInfo)
    (hiso : ∀ c ∈ l, c.last_connected_at ≠ some "") :
    (l = [] → get_last_connection l = none) ∧
    (l ≠ [] → ∃ p, get_last_connection l = some p) ∧
    (∀ p, get_last_connection l = some p →
      p ∈ l ∧
      (∀ q ∈ l, charListLe (sort_key q).data (sort_key p).data = true) ∧
      ((∃ q ∈ l, q.last_connected_at.isSome = true) →
        p.last_connected_at.isSome = true)) := by
  refine ⟨?_, ?_, ?_⟩
  · intro h
    subst h
    rfl
  · intro h
    have hemp : l.isEmpty = false := by
      cases l with
      | nil => exact absurd rfl h
      | cons a t => rfl
    have hne : l.insertionSort tsGE ≠ [] := by
      intro hs
      have hperm := List.perm_insertionSort tsGE l
      rw [hs] at hperm
      exact h hperm.symm.eq_nil
    cases hs : l.insertionSort tsGE with
    | nil => exact absurd hs hne
    | cons p rest =>
      refine ⟨p, ?_⟩
      unfold get_last_connection
      rw [if_neg (by rw [hemp]; exact Bool.false_ne_true), hs]
      rfl
  · intro p hp
    unfold get_last_connection at hp
    by_cases hemp : l.isEmpty = true
    · rw [if_pos hemp] at hp
      cases hp
    · rw [if_neg hemp] at hp
      cases hs : l.insertionSort tsGE with
      | nil =>
        rw [hs] at hp
        cases hp
      | cons p0 rest =>
        rw [hs] at hp
        have hpp : p0 = p := by
          simpa using hp
        subst hpp
        have hsorted := List.sorted_insertionSort tsGE l
        rw [hs] at hsorted
        have hmax : ∀ q ∈ rest, tsGE p0 q := (List.sorted_cons.mp hsorted).1
        have hperm := List.perm_insertionSort tsGE l
        rw [hs] at hperm
        have hkey : ∀ q ∈ l,
            charListLe (sort_key q).data (sort_key p0).data = true := by
          intro q hq
          have hq' : q ∈ p0 :: rest := hperm.mem_iff.mpr hq
          rcases List.mem_cons.mp hq' with hq0 | hqr
          · rcases charListLe_total (sort_key q).data (sort_key p0).data
              with h | h
            · exact h
            · rw [hq0]
              rw [hq0] at h
              exact h
          · exact hmax q hqr
        refine ⟨hperm.mem_iff.mp (List.mem_cons_self p0 rest), hkey, ?_⟩
        rintro ⟨q, hq, hqs⟩
        cases hpl : p0.last_connected_at with
        | some s => rfl
        | none =>
          obtain ⟨s, hqs'⟩ := Option.isSome_iff_exists.mp hqs
          have hqkey : sort_key q = s := by simp [sort_key, hqs']
          have hpkey : sort_key p0 = "" := by simp [sort_key, hpl]
          have hle := hkey q hq
          rw [hpkey] at hle
          have hdata : (sort_key q).data = [] := charListLe_nil hle
          have : s = "" := by
            rw [hqkey] at hdata
            cases s with
            | mk d => cases hdata; rfl
          exact absurd (this ▸ hqs') (hiso q hq)

theorem claim_C7_witness :
    get_last_connection
      [⟨"c", "h", 5432, "d", "u", "", none⟩,
       ⟨"a", "h", 5432, "d", "u", "", some "2024-01-01T00:00:00"⟩,
       ⟨"b", "h", 5432, "d", "u", "", some "2025-01-01T00:00:00"⟩] =
      some ⟨"b", "h", 5432, "d", "u", "", some "2025-01-01T00:00:00"⟩ ∧
    (⟨"b", "h", 5432, "d", "u", "", some "2025-01-01T00:00:00"⟩ : ConnectionInfo) ∈
      [⟨"c", "h", 5432, "d", "u", "", none⟩,
       ⟨"a", "h", 5432, "d", "u", "", some "2024-01-01T00:00:00"⟩,
       ⟨"b", "h", 5432, "d", "u", "", some "2025-01-01T00:00:00"⟩] ∧
    (⟨"b", "h", 5432, "d", "u", "", some "2025-01-01T00:00:00"⟩ :
      ConnectionInfo).last_connected_at.isSome = true := by
  have hiso : ∀ c ∈
      [(⟨"c", "h", 5432, "d", "u", "", none⟩ : ConnectionInfo),
       ⟨"a", "h", 5432, "d", "u", "", some "2024-01-01T00:00:00"⟩,
       ⟨"b", "h", 5432, "d", "u", "", some "2025-01-01T00:00:00"⟩],
      c.last_connected_at ≠ some "" := by
    intro c hc
    fin_cases hc <;> simp
  have hval : get_last_connection
      [(⟨"c", "h", 5432, "d", "u", "", none⟩ : ConnectionInfo),
       ⟨"a", "h", 5432, "d", "u", "", some "2024-01-01T00:00:00"⟩,
       ⟨"b", "h", 5432, "d", "u", "", some "2025-01-01T00:00:00"⟩] =
      some ⟨"b", "h", 5432, "d", "u", "", some "2025-01-01T00:00:00"⟩ := by
    decide
  have h := (claim_C7 _ hiso).2.2 _ hval
  exact ⟨hval, h.1, h.2.2 ⟨_, List.mem_cons_of_mem _ (List.mem_cons_self _ _),
    rfl⟩⟩

/-! ## Error-classified results and editability -/

/-- C9 counterexample: an error-classified result (single column named
`Error`) with a bound table reference and a non-empty primary-key list is
editable, and a write through `setData` is accepted and recorded — the
claim that no cell of an error-classified result ever accepts an edit,
regardless of bound table reference or primary-key list, is false on the
code (`flags` and `setData` never consult the error marker). -/
theorem claim_C9_counterexample :
    ((ResultsModel.init.set_data [[("Error", PyVal.vstr "boom")]] ["Error"]
        []).set_table_info "public" "t" ["id"]).is_error = true ∧
    ((ResultsModel.init.set_data [[("Error", PyVal.vstr "boom")]] ["Error"]
        []).set_table_info "public" "t" ["id"]).editable = true ∧
    ((((ResultsModel.init.set_data [[("Error", PyVal.vstr "boom")]] ["Error"]
        []).set_table_info "public" "t" ["id"]).setData 0 0
        (PyVal.vstr "fix")).2 = true) ∧
    ((((ResultsModel.init.set_data [[("Error", PyVal.vstr "boom")]] ["Error"]
        []).set_table_info "public" "t" ["id"]).setData 0 0
        (PyVal.vstr "fix")).1.edits = [((0, 0), PyVal.vstr "fix")]) := by
  refine ⟨rfl, rfl, ?_, ?_⟩ <;> decide

/-- C9 amended: editability of an error-classified result is decided
exactly as for any other result — by the bound table reference and
primary-key list alone; in particular, with no bound table or an empty
primary-key list an error-classified result is never editable. -/
theorem claim_C9_amended (m : ResultsModel) (_hme : m.is_error = true) :
    m.editable = true ↔ (m.table ≠ "" ∧ m.pk_columns ≠ []) := by
  unfold ResultsModel.editable
  constructor
  · intro h
    rw [Bool.and_eq_true, Bool.not_eq_true', Bool.not_eq_true'] at h
    refine ⟨fun ht => ?_, fun hp => ?_⟩
    · rw [ht] at h
      simpa using h.1
    · rw [hp] at h
      simpa using h.2
  · rintro ⟨ht, hp⟩
    rw [Bool.and_eq_true, Bool.not_eq_true', Bool.not_eq_true']
    constructor
    · exact beq_eq_false_iff_ne.mpr ht
    · cases hl : m.pk_columns with
      | nil => exact absurd hl hp
      | cons a t => rfl

theorem claim_C9_amended_witness :
    ((ResultsModel.init.set_data [[("Error", PyVal.vstr "boom")]] ["Error"]
        []).set_table_info "" "" []).is_error = true ∧
    ((ResultsModel.init.set_data [[("Error", PyVal.vstr "boom")]] ["Error"]
        []).set_table_info "" "" []).editable = false := by
  refine ⟨rfl, ?_⟩
  have h := claim_C9_amended
    ((ResultsModel.init.set_data [[("Error", PyVal.vstr "boom")]] ["Error"]
        []).set_table_info "" "" []) rfl
  cases he : ((ResultsModel.init.set_data [[("Error", PyVal.vstr "boom")]]
      ["Error"] []).set_table_info "" "" []).editable with
  | false => rfl
  | true => exact absurd rfl (h.mp he).1

end PgAdminKK

